import Mathlib

/-!
Verification of the streaming-response decoder and the keyboard-shortcut
matcher of the pawa-frontend repository.

The embedding models text as `List Char`.  Two stream consumers exist in the
source and both are embedded here:

* `smRun` / `smProcessLines` — `chatApi.streamMessage` (src/unnamed/part_000,
  lines 45–103): splits every transport chunk on `'\n'` *without* carrying a
  buffer between chunks, recognises the literal sentinels `[DONE]` and
  `[ERROR]`, forwards every other `data: ` payload verbatim to `onChunk`, and
  stops (early `return`) at a sentinel.

* `scRun` / `scFeed` / `scLine` — the decode loop of `handleSendMessage`
  (src/src/components/StreamingChatUI.tsx, lines 92–174): carries the
  unterminated tail of the byte stream in `buffer`, `JSON.parse`s each
  `data: ` line, and dispatches on the `type` field, accumulating
  `thinkingBuffer` / `contentBuffer` and appending UI messages.

`JSON.parse` is embedded as `parseJson`, a fuel-bounded recursive-descent
parser for JSON values.  Deliberate, claim-irrelevant simplifications of the
numeric fine points are noted at `parseNumber`.
-/

namespace Pawa

/-- JSON values as produced by `JSON.parse`.  Numbers are restricted to
integers (`Int`): no claim depends on fractional or exponent literals, and
floating point is outside the embedding.  Object fields keep their textual
order; duplicate keys are resolved by `lookupField` (last occurrence wins,
matching JavaScript object semantics). -/
inductive Json where
  | null : Json
  | bool : Bool → Json
  | num : Int → Json
  | str : List Char → Json
  | arr : List Json → Json
  | obj : List (List Char × Json) → Json

/-- Property lookup on a parsed JSON value, as JavaScript `data.field`
evaluates: on a non-object the result is `undefined` (`none`); on an object
the last binding of the key wins. -/
def lookupField : List (List Char × Json) → List Char → Option Json
  | [], _ => none
  | (k, v) :: fs, key =>
    match lookupField fs key with
    | some r => some r
    | none => if k = key then some v else none

/-- JavaScript property access `data.key`: `undefined` (`none`) unless `data`
is an object with the key. -/
def getField : Json → List Char → Option Json
  | Json.obj fs, key => lookupField fs key
  | _, _ => none

/-- Whitespace accepted between JSON tokens (as in `JSON.parse`). -/
def isJsonWs (c : Char) : Bool :=
  c = ' ' || c = '\t' || c = '\n' || c = '\r'

def skipWs (cs : List Char) : List Char :=
  cs.dropWhile isJsonWs

def isDigitCh (c : Char) : Bool :=
  '0' ≤ c && c ≤ '9'

/-- Numeric value of a digit string (most significant first). -/
def natOfDigits : List Char → Nat → Nat
  | [], acc => acc
  | c :: cs, acc => natOfDigits cs (acc * 10 + (c.toNat - 48))

def hexVal (c : Char) : Option Nat :=
  if '0' ≤ c && c ≤ '9' then some (c.toNat - 48)
  else if 'a' ≤ c && c ≤ 'f' then some (c.toNat - 87)
  else if 'A' ≤ c && c ≤ 'F' then some (c.toNat - 55)
  else none

/-- Body of a JSON string literal (the opening quote already consumed).
Returns the decoded characters and the input after the closing quote.
Common escapes and `\uXXXX` are decoded; surrogate pairing is not modelled
(no claim exercises it). -/
def parseStringBody : List Char → Option (List Char × List Char)
  | [] => none
  | '"' :: rest => some ([], rest)
  | '\\' :: e :: rest =>
    match e with
    | '"' => (parseStringBody rest).map (fun p => ('"' :: p.1, p.2))
    | '\\' => (parseStringBody rest).map (fun p => ('\\' :: p.1, p.2))
    | '/' => (parseStringBody rest).map (fun p => ('/' :: p.1, p.2))
    | 'b' => (parseStringBody rest).map (fun p => ('\x08' :: p.1, p.2))
    | 'f' => (parseStringBody rest).map (fun p => ('\x0c' :: p.1, p.2))
    | 'n' => (parseStringBody rest).map (fun p => ('\n' :: p.1, p.2))
    | 'r' => (parseStringBody rest).map (fun p => ('\r' :: p.1, p.2))
    | 't' => (parseStringBody rest).map (fun p => ('\t' :: p.1, p.2))
    | 'u' =>
      match rest with
      | a :: b :: c :: d :: rest' =>
        match hexVal a, hexVal b, hexVal c, hexVal d with
        | some ha, some hb, some hc, some hd =>
          (parseStringBody rest').map
            (fun p => (Char.ofNat (((ha * 16 + hb) * 16 + hc) * 16 + hd) :: p.1, p.2))
        | _, _, _, _ => none
      | _ => none
    | _ => none
  | '\\' :: [] => none
  | c :: rest => (parseStringBody rest).map (fun p => (c :: p.1, p.2))

/-- Integer literal: optional minus sign followed by at least one digit.
`JSON.parse` additionally accepts fractions/exponents and rejects leading
zeros; those fine points are intentionally out of the embedding (no claim
depends on them). -/
def parseNumber (cs : List Char) : Option (Int × List Char) :=
  match cs with
  | '-' :: rest =>
    let ds := rest.takeWhile isDigitCh
    if ds.isEmpty then none
    else some (-(Int.ofNat (natOfDigits ds 0)), rest.dropWhile isDigitCh)
  | _ =>
    let ds := cs.takeWhile isDigitCh
    if ds.isEmpty then none
    else some (Int.ofNat (natOfDigits ds 0), cs.dropWhile isDigitCh)

mutual

/-- Fuel-bounded recursive-descent JSON value parser; returns the value and
the unconsumed input. -/
def parseValue : Nat → List Char → Option (Json × List Char)
  | 0, _ => none
  | fuel + 1, cs =>
    match skipWs cs with
    | 'n' :: 'u' :: 'l' :: 'l' :: rest => some (Json.null, rest)
    | 't' :: 'r' :: 'u' :: 'e' :: rest => some (Json.bool true, rest)
    | 'f' :: 'a' :: 'l' :: 's' :: 'e' :: rest => some (Json.bool false, rest)
    | '"' :: rest => (parseStringBody rest).map (fun p => (Json.str p.1, p.2))
    | '[' :: rest =>
      (match skipWs rest with
       | ']' :: rest' => some (Json.arr [], rest')
       | _ => (parseItems fuel rest).map (fun p => (Json.arr p.1, p.2)))
    | '{' :: rest =>
      (match skipWs rest with
       | '}' :: rest' => some (Json.obj [], rest')
       | _ => (parseMembers fuel rest).map (fun p => (Json.obj p.1, p.2)))
    | other => (parseNumber other).map (fun p => (Json.num p.1, p.2))

/-- Comma-separated array items up to the closing bracket. -/
def parseItems : Nat → List Char → Option (List Json × List Char)
  | 0, _ => none
  | fuel + 1, cs =>
    match parseValue fuel cs with
    | none => none
    | some (v, rest) =>
      match skipWs rest with
      | ',' :: rest' =>
        (parseItems fuel rest').map (fun p => (v :: p.1, p.2))
      | ']' :: rest' => some ([v], rest')
      | _ => none

/-- Comma-separated object members up to the closing brace. -/
def parseMembers : Nat → List Char → Option (List (List Char × Json) × List Char)
  | 0, _ => none
  | fuel + 1, cs =>
    match skipWs cs with
    | '"' :: rest =>
      (match parseStringBody rest with
       | none => none
       | some (key, rest') =>
         match skipWs rest' with
         | ':' :: rest'' =>
           (match parseValue fuel rest'' with
            | none => none
            | some (v, rest''') =>
              match skipWs rest''' with
              | ',' :: more =>
                (parseMembers fuel more).map (fun p => ((key, v) :: p.1, p.2))
              | '}' :: more => some ([(key, v)], more)
              | _ => none)
         | _ => none)
    | _ => none

end

/-- `JSON.parse` on a payload: a single JSON value surrounded by optional
whitespace; anything else throws (returns `none`). -/
def parseJson (cs : List Char) : Option Json :=
  match parseValue (cs.length + 2) cs with
  | some (v, rest) => if (skipWs rest).isEmpty then some v else none
  | none => none

def isNullJ : Json → Bool
  | Json.null => true
  | _ => false

mutual

/-- JavaScript string coercion `String(v)` of a parsed JSON value, as used by
`thinkingBuffer += data.content`, the template literal in the tool message,
and `new Error(data.error)`.  Array elements follow `Array.prototype.join`:
`null` renders empty, elements are comma-separated. -/
def jsValToString : Json → List Char
  | Json.null => "null".toList
  | Json.bool true => "true".toList
  | Json.bool false => "false".toList
  | Json.num n => (toString n).toList
  | Json.str s => s
  | Json.obj _ => "[object Object]".toList
  | Json.arr xs => jsArrToString xs

/-- Comma-join of array elements (`Array.prototype.join`), with `null`
rendered empty. -/
def jsArrToString : List Json → List Char
  | [] => []
  | [x] => if isNullJ x then [] else jsValToString x
  | x :: xs =>
    (if isNullJ x then [] else jsValToString x) ++ (",".toList) ++ jsArrToString xs

end

/-- String coercion of a possibly-`undefined` property (JS renders the
`undefined` value as the text `undefined` when concatenated). -/
def jsToString : Option Json → List Char
  | none => "undefined".toList
  | some j => jsValToString j

/-- Message text of `new Error(x)`: absent argument gives the empty message,
otherwise the argument is string-coerced. -/
def errMessage : Option Json → List Char
  | none => []
  | some j => jsValToString j

/-- Test `data.type === '<t>'` for a string tag. -/
def isStrEq : Option Json → List Char → Bool
  | some (Json.str s), t => s == t
  | _, _ => false

def typeIs (data : Json) (t : List Char) : Bool :=
  isStrEq (getField data ("type".toList)) t

/-! ## Line framing

Both consumers split text on `'\n'`.  `lineSplit` returns the complete lines
(the segments before each newline) and the unterminated tail; JavaScript's
`chunk.split('\n')` is `splitAll`, and the `lines.pop()` idiom of
StreamingChatUI corresponds to processing `(lineSplit b).1` while retaining
`(lineSplit b).2` as the new buffer. -/

def lineSplit : List Char → List (List Char) × List Char
  | [] => ([], [])
  | c :: cs =>
    let p := lineSplit cs
    if c = '\n' then ([] :: p.1, p.2)
    else
      match p.1 with
      | [] => ([], c :: p.2)
      | l :: ls => ((c :: l) :: ls, p.2)

/-- JavaScript `text.split('\n')`: every segment, including the final
unterminated one. -/
def splitAll (cs : List Char) : List (List Char) :=
  (lineSplit cs).1 ++ [(lineSplit cs).2]

def dataMark : List Char := "data: ".toList

/-! ## chatApi.streamMessage (src/unnamed/part_000, lines 45–103) -/

/-- Observable callback invocations of `chatApi.streamMessage`. -/
inductive SMEv where
  | chunkOut : List Char → SMEv
  | complete : SMEv
  | err : List Char → SMEv

/-- Per-chunk line loop of `streamMessage`.  A `data: ` line equal to
`[DONE]` invokes `onComplete` and returns from the whole function; a payload
starting with `[ERROR]` invokes `onError` with `data.slice(8)` and returns;
any other payload is forwarded to `onChunk`.  The `Bool` reports whether the
early `return` was taken. -/
def smProcessLines : List (List Char) → List SMEv × Bool
  | [] => ([], false)
  | l :: ls =>
    if dataMark.isPrefixOf l then
      let d := l.drop 6
      if d = "[DONE]".toList then ([SMEv.complete], true)
      else if ("[ERROR]".toList).isPrefixOf d then ([SMEv.err (d.drop 8)], true)
      else
        let p := smProcessLines ls
        (SMEv.chunkOut d :: p.1, p.2)
    else smProcessLines ls

/-- Whole-stream behaviour of `streamMessage`: each transport chunk is split
on `'\n'` in isolation (no buffer is carried between chunks), and transport
end invokes `onComplete`. -/
def smRun : List (List Char) → List SMEv
  | [] => [SMEv.complete]
  | c :: cs =>
    let p := smProcessLines (splitAll c)
    if p.2 then p.1 else p.1 ++ smRun cs

/-! ## StreamingChatUI decode loop (StreamingChatUI.tsx, lines 92–174) -/

inductive Role where
  | user : Role
  | assistant : Role
  | thinking : Role
  | tool : Role
deriving DecidableEq

/-- The `toolCall` record attached to a tool message (`name`/`args` are the
raw JSON properties, possibly `undefined`). -/
structure ToolCallInfo where
  name : Option Json
  args : Option Json
  result : Option Json

structure Msg where
  role : Role
  content : List Char
  toolCall : Option ToolCallInfo

/-- `setMessages` update of the `tool_result` branch: `findLastIndex` of a
`tool`-role message; if found and it carries a `toolCall`, its `result` is
assigned.  The `Bool` means a `tool`-role message was found (the search does
not continue past it even if it has no `toolCall`). -/
def applyToolResult (r : Option Json) : List Msg → List Msg × Bool
  | [] => ([], false)
  | m :: ms =>
    let p := applyToolResult r ms
    if p.2 then (m :: p.1, true)
    else if m.role = Role.tool then
      ((if m.toolCall.isSome
        then { m with toolCall := m.toolCall.map (fun tc => { tc with result := r }) }
        else m) :: ms, true)
    else (m :: ms, false)

/-- Local state of one `handleSendMessage` streaming run apart from the line
`buffer` (which the loop threads separately, mirroring the separate local
variable in the source): the `thinkingBuffer`/`contentBuffer` accumulators,
the `inThinking`/`inAnswer` flags, the `currentThinking`/`currentContent`
React state mirrors, and the `messages` list. -/
structure SCState where
  thinkingBuffer : List Char
  contentBuffer : List Char
  inThinking : Bool
  inAnswer : Bool
  currentThinking : List Char
  currentContent : List Char
  messages : List Msg

def scInit : SCState :=
  { thinkingBuffer := [], contentBuffer := []
    inThinking := false, inAnswer := false
    currentThinking := [], currentContent := [], messages := [] }

/-- Observable actions of the StreamingChatUI decode loop.  `caught none`
is the `console.error` of a `JSON.parse` failure; `caught (some m)` is the
`console.error` of the exception thrown by the `type === 'error'` branch
(swallowed by the same per-line `catch`).  `doneFin` marks the
finalization performed by the `type === 'done'` branch. -/
inductive SCEv where
  | thinking : List Char → SCEv
  | content : List Char → SCEv
  | toolCallMsg : Option Json → Option Json → SCEv
  | toolResultUpd : Option Json → SCEv
  | fileMod : Option Json → SCEv
  | doneFin : SCEv
  | caught : Option (List Char) → SCEv

/-- Dispatch on `data.type` after a successful `JSON.parse`, mirroring the
if/else chain of lines 112–168 of StreamingChatUI.tsx. -/
def scDispatch (showT : Bool) (s : SCState) (data : Json) : SCState × List SCEv :=
  if typeIs data ("thinking".toList) then
    let d := jsToString (getField data ("content".toList))
    ({ s with inThinking := true
              thinkingBuffer := s.thinkingBuffer ++ d
              currentThinking := s.thinkingBuffer ++ d },
     [SCEv.thinking d])
  else if typeIs data ("content".toList) then
    let d := jsToString (getField data ("content".toList))
    ({ s with inThinking := false, inAnswer := true
              contentBuffer := s.contentBuffer ++ d
              currentContent := s.contentBuffer ++ d },
     [SCEv.content d])
  else if typeIs data ("tool_call".toList) then
    let nm := getField data ("tool_name".toList)
    let ar := getField data ("tool_args".toList)
    ({ s with messages := s.messages ++
        [{ role := Role.tool
           content := ("Executing: ".toList) ++ jsToString nm
           toolCall := some { name := nm, args := ar, result := none } }] },
     [SCEv.toolCallMsg nm ar])
  else if typeIs data ("tool_result".toList) then
    let r := getField data ("result".toList)
    let nm := getField data ("tool_name".toList)
    ({ s with messages := (applyToolResult r s.messages).1 },
     SCEv.toolResultUpd r ::
       (if isStrEq nm ("write_file".toList) || isStrEq nm ("edit_file".toList)
        then [SCEv.fileMod
          ((getField data ("tool_args".toList)).bind
            (fun a => getField a ("file_path".toList)))]
        else []))
  else if typeIs data ("done".toList) then
    let finalized := s.messages ++
      (if !s.thinkingBuffer.isEmpty && showT
       then [{ role := Role.thinking, content := s.thinkingBuffer, toolCall := none }]
       else []) ++
      (if !s.contentBuffer.isEmpty
       then [{ role := Role.assistant, content := s.contentBuffer, toolCall := none }]
       else [])
    ({ s with messages := finalized, currentThinking := [], currentContent := [] },
     [SCEv.doneFin])
  else if typeIs data ("error".toList) then
    (s, [SCEv.caught (some (errMessage (getField data ("error".toList))))])
  else
    (s, [])

/-- Processing of one complete line: lines without the `data: ` mark are
skipped; the payload after the mark goes through `JSON.parse`, whose failure
(and any exception thrown inside the branch bodies) is swallowed by the
per-line `catch` as a console log. -/
def scLine (showT : Bool) (s : SCState) (line : List Char) : SCState × List SCEv :=
  if dataMark.isPrefixOf line then
    match parseJson (line.drop 6) with
    | none => (s, [SCEv.caught none])
    | some data => scDispatch showT s data
  else (s, [])

def scLines (showT : Bool) (s : SCState) : List (List Char) → SCState × List SCEv
  | [] => (s, [])
  | l :: ls =>
    let p := scLine showT s l
    let q := scLines showT p.1 ls
    (q.1, p.2 ++ q.2)

/-- One `reader.read()` iteration: append the chunk to the buffer, split on
`'\n'`, keep the final segment as the new buffer (`lines.pop()`), process
the complete lines. -/
def scFeed (showT : Bool) (b : List Char) (s : SCState) (chunk : List Char) :
    (List Char × SCState) × List SCEv :=
  let p := lineSplit (b ++ chunk)
  let q := scLines showT s p.1
  ((p.2, q.1), q.2)

/-- A whole run of the decode loop over the transport's chunk sequence.
When the reader reports `done` the loop just breaks: the buffered
unterminated line is dropped and nothing further is emitted. -/
def scRun (showT : Bool) (b : List Char) (s : SCState) :
    List (List Char) → (List Char × SCState) × List SCEv
  | [] => ((b, s), [])
  | c :: cs =>
    let p := scFeed showT b s c
    let q := scRun showT p.1.1 p.1.2 cs
    (q.1, p.2 ++ q.2)

/-! ## Keyboard shortcut matcher (src/src/hooks/useKeyboardShortcuts.ts) -/

/-- ASCII lower-casing of one character, as `toLowerCase` acts on the key
names the hook compares. -/
def lowerChar (c : Char) : Char :=
  if 'A' ≤ c ∧ c ≤ 'Z' then Char.ofNat (c.toNat + 32) else c

def lowerStr (s : List Char) : List Char :=
  s.map lowerChar

/-- A registered shortcut descriptor.  `none` on a modifier models the
TypeScript optional field being `undefined`; `handler` is an opaque
identifier standing for the callback. -/
structure Shortcut where
  key : List Char
  ctrl : Option Bool
  shift : Option Bool
  alt : Option Bool
  meta : Option Bool
  handler : Nat

/-- The relevant fields of a browser `KeyboardEvent`. -/
structure KeyEvent where
  key : List Char
  ctrlKey : Bool
  shiftKey : Bool
  altKey : Bool
  metaKey : Bool

/-- JavaScript `shortcut.flag === undefined || shortcut.flag === event.flag`. -/
def optMatches : Option Bool → Bool → Bool
  | none, _ => true
  | some b, v => b == v

def matchesKey (sc : Shortcut) (e : KeyEvent) : Bool :=
  lowerStr e.key == lowerStr sc.key

def cmdOrCtrl (e : KeyEvent) : Bool :=
  e.ctrlKey || e.metaKey

/-- Truthiness of `shortcut.ctrl || shortcut.meta`: an undefined or `false`
flag is falsy. -/
def wantsCmd (sc : Shortcut) : Bool :=
  sc.ctrl == some true || sc.meta == some true

/-- Modifier matching: shortcuts requesting ctrl or meta accept either key
(ignoring the individual ctrl/meta comparisons); otherwise every set flag
must equal the event's flag and unset flags are don't-care. -/
def matchesModifier (sc : Shortcut) (e : KeyEvent) : Bool :=
  if wantsCmd sc then
    cmdOrCtrl e && optMatches sc.shift e.shiftKey && optMatches sc.alt e.altKey
  else
    optMatches sc.ctrl e.ctrlKey && optMatches sc.shift e.shiftKey &&
      optMatches sc.alt e.altKey && optMatches sc.meta e.metaKey

/-- The in-input-field suppression test of line 44: a matching shortcut is
skipped when focus is in an input field, its descriptor key is not the exact
string `Escape`, and neither ctrl nor meta is held on the event. -/
def suppressed (inField : Bool) (sc : Shortcut) (e : KeyEvent) : Bool :=
  inField && !(sc.key == ("Escape".toList)) && !(cmdOrCtrl e)

/-- The `for … of` dispatch loop: first matching descriptor fires unless
suppressed, in which case scanning continues; returns the handler invoked,
if any. -/
def dispatch (inField : Bool) (e : KeyEvent) : List Shortcut → Option Nat
  | [] => none
  | sc :: rest =>
    if matchesKey sc e && matchesModifier sc e then
      if suppressed inField sc e then dispatch inField e rest
      else some sc.handler
    else dispatch inField e rest

/-! ## Derived observables and concrete wire fixtures -/

/-- Concatenation, in emission order, of the `content` deltas of a trace. -/
def contentDeltas : List SCEv → List Char
  | [] => []
  | SCEv.content d :: es => d ++ contentDeltas es
  | _ :: es => contentDeltas es

/-- Concatenation, in emission order, of the `thinking` deltas of a trace. -/
def thinkingDeltas : List SCEv → List Char
  | [] => []
  | SCEv.thinking d :: es => d ++ thinkingDeltas es
  | _ :: es => thinkingDeltas es

def doneLine : List Char := "data: \x7b\"type\":\"done\"\x7d".toList

def errLine : List Char := "data: \x7b\"type\":\"error\",\"error\":\"boom\"\x7d".toList

def contentXLine : List Char := "data: \x7b\"type\":\"content\",\"content\":\"x\"\x7d".toList

/-- The spec's unterminated-stream scenario line (no trailing newline). -/
def partialLine : List Char := "data: \x7b\"type\":\"content\",\"content\":\"partial\"\x7d".toList

def badLine : List Char := "data: notjson".toList

def tcLine : List Char :=
  "data: \x7b\"type\":\"tool_call\",\"tool_name\":\"read_file\",\"tool_args\":\x7b\"path\":\"a.ts\"\x7d\x7d".toList

def tcName : Option Json := some (Json.str ("read_file".toList))

def tcArgs : Option Json := some (Json.obj [(("path".toList), Json.str ("a.ts".toList))])

def trLine : List Char :=
  "data: \x7b\"type\":\"tool_result\",\"tool_name\":\"read_file\",\"result\":\x7b\"ok\":true\x7d\x7d".toList

def trRes : Option Json := some (Json.obj [(("ok".toList), Json.bool true)])

/-- A descriptor with no modifier constraints on the letter `k`. -/
def plainK : Shortcut :=
  { key := ("k".toList), ctrl := none, shift := none, alt := none, meta := none
    handler := 0 }

/-- A `k` keydown with the control key held. -/
def eCtrlK : KeyEvent :=
  { key := ("k".toList), ctrlKey := true, shiftKey := false, altKey := false
    metaKey := false }

/-- A descriptor registered with the lowercase key name `escape`. -/
def scEscLower : Shortcut :=
  { key := ("escape".toList), ctrl := none, shift := none, alt := none, meta := none
    handler := 0 }

/-- A descriptor registered with the exact key name `Escape`. -/
def scEscExact : Shortcut :=
  { key := ("Escape".toList), ctrl := none, shift := none, alt := none, meta := none
    handler := 1 }

/-- An `Escape` keydown with no modifiers held. -/
def eEsc : KeyEvent :=
  { key := ("Escape".toList), ctrlKey := false, shiftKey := false, altKey := false
    metaKey := false }

/-- A ctrl+s-style descriptor used to exercise the ctrl/meta interchange. -/
def scCtrlS : Shortcut :=
  { key := ("s".toList), ctrl := some true, shift := none, alt := none, meta := none
    handler := 7 }

/-- An `s` keydown with no modifiers held. -/
def eS : KeyEvent :=
  { key := ("s".toList), ctrlKey := false, shiftKey := false, altKey := false
    metaKey := false }

/-! ## Framing lemmas for the chunk buffer -/

theorem lineSplit_append (a b : List Char) :
    lineSplit (a ++ b) =
      ((lineSplit a).1 ++ (lineSplit ((lineSplit a).2 ++ b)).1,
       (lineSplit ((lineSplit a).2 ++ b)).2) := by
  induction a with
  | nil => simp [lineSplit]
  | cons c a ih =>
    simp only [List.cons_append, lineSplit, List.append_eq]
    rw [ih]
    by_cases hc : c = '\n'
    · simp [hc]
    · simp only [hc, if_false]
      cases h1 : (lineSplit a).1 with
      | nil =>
        cases h2 : (lineSplit ((lineSplit a).2 ++ b)).1 with
        | nil => simp [lineSplit, h1, h2, hc]
        | cons l ls => simp [lineSplit, h1, h2, hc]
      | cons l ls => simp [lineSplit, h1, hc]

/-- A text with no newline has no complete line: it stays in the buffer. -/
theorem lineSplit_no_nl (cs : List Char) (h : '\n' ∉ cs) : lineSplit cs = ([], cs) := by
  induction cs with
  | nil => rfl
  | cons c cs ih =>
    simp only [List.mem_cons, not_or] at h
    simp [lineSplit, ih h.2, Ne.symm h.1]

/-- The retained tail never contains a newline. -/
theorem lineSplit_rest_no_nl (cs : List Char) : '\n' ∉ (lineSplit cs).2 := by
  induction cs with
  | nil => simp [lineSplit]
  | cons c cs ih =>
    by_cases hc : c = '\n'
    · simp [lineSplit, hc, ih]
    · simp only [lineSplit, hc, if_false]
      cases h1 : (lineSplit cs).1 with
      | nil =>
        simp only [List.mem_cons, not_or]
        exact ⟨fun hh => hc hh.symm, ih⟩
      | cons l ls => simpa using ih

theorem no_nl_append {a b : List Char} (ha : '\n' ∉ a) (hb : '\n' ∉ b) :
    '\n' ∉ a ++ b := by
  intro h
  rcases List.mem_append.mp h with h | h
  · exact ha h
  · exact hb h

/-! ## Composition of feed steps -/

theorem scLines_append (showT : Bool) (s : SCState) (ls₁ ls₂ : List (List Char)) :
    scLines showT s (ls₁ ++ ls₂) =
      ((scLines showT (scLines showT s ls₁).1 ls₂).1,
       (scLines showT s ls₁).2 ++ (scLines showT (scLines showT s ls₁).1 ls₂).2) := by
  induction ls₁ generalizing s with
  | nil => simp [scLines]
  | cons l ls ih => simp [scLines, ih]

/-- Feeding a chunk `a` and then a chunk `c` is feeding `a ++ c`. -/
theorem scFeed_comp (showT : Bool) (b : List Char) (s : SCState) (a c : List Char) :
    scFeed showT b s (a ++ c) =
      (((scFeed showT (scFeed showT b s a).1.1 (scFeed showT b s a).1.2 c).1),
       (scFeed showT b s a).2 ++
         (scFeed showT (scFeed showT b s a).1.1 (scFeed showT b s a).1.2 c).2) := by
  simp only [scFeed]
  rw [← List.append_assoc, lineSplit_append (b ++ a) c, scLines_append]

/-- A whole run over any chunk sequence equals one feed of the joined text. -/
theorem scRun_eq_scFeed (showT : Bool) (cs : List (List Char)) :
    ∀ (b : List Char) (s : SCState), '\n' ∉ b →
      scRun showT b s cs = scFeed showT b s cs.flatten := by
  induction cs with
  | nil =>
    intro b s hb
    simp [scRun, scFeed, lineSplit_no_nl b hb, scLines]
  | cons c cs ih =>
    intro b s hb
    have hrest : '\n' ∉ (scFeed showT b s c).1.1 := by
      simp only [scFeed]
      exact lineSplit_rest_no_nl (b ++ c)
    simp only [scRun, List.flatten_cons]
    rw [ih _ _ hrest, scFeed_comp]

/-- A newline-free chunk produces no events. -/
theorem scFeed_no_nl (showT : Bool) (b : List Char) (s : SCState) (t : List Char)
    (hb : '\n' ∉ b) (ht : '\n' ∉ t) : (scFeed showT b s t).2 = [] := by
  simp only [scFeed]
  rw [lineSplit_no_nl (b ++ t) (no_nl_append hb ht)]
  rfl

/-! ## Buffer accumulation -/

theorem contentDeltas_append (e₁ e₂ : List SCEv) :
    contentDeltas (e₁ ++ e₂) = contentDeltas e₁ ++ contentDeltas e₂ := by
  induction e₁ with
  | nil => rfl
  | cons e es ih => cases e <;> simp [contentDeltas, ih]

theorem thinkingDeltas_append (e₁ e₂ : List SCEv) :
    thinkingDeltas (e₁ ++ e₂) = thinkingDeltas e₁ ++ thinkingDeltas e₂ := by
  induction e₁ with
  | nil => rfl
  | cons e es ih => cases e <;> simp [thinkingDeltas, ih]

theorem contentDeltas_fileMod_ite (c : Prop) [Decidable c] (p : Option Json) :
    contentDeltas (if c then [SCEv.fileMod p] else []) = [] := by
  split <;> rfl

theorem thinkingDeltas_fileMod_ite (c : Prop) [Decidable c] (p : Option Json) :
    thinkingDeltas (if c then [SCEv.fileMod p] else []) = [] := by
  split <;> rfl

/-- Each branch changes each accumulator exactly by the deltas it emits. -/
theorem scDispatch_buffers (showT : Bool) (s : SCState) (d : Json) :
    (scDispatch showT s d).1.contentBuffer =
      s.contentBuffer ++ contentDeltas (scDispatch showT s d).2 ∧
    (scDispatch showT s d).1.thinkingBuffer =
      s.thinkingBuffer ++ thinkingDeltas (scDispatch showT s d).2 := by
  unfold scDispatch
  repeat' split
  all_goals first
  | rfl
  | simp [contentDeltas, thinkingDeltas, contentDeltas_fileMod_ite,
      thinkingDeltas_fileMod_ite]

theorem scLine_buffers (showT : Bool) (s : SCState) (l : List Char) :
    (scLine showT s l).1.contentBuffer =
      s.contentBuffer ++ contentDeltas (scLine showT s l).2 ∧
    (scLine showT s l).1.thinkingBuffer =
      s.thinkingBuffer ++ thinkingDeltas (scLine showT s l).2 := by
  unfold scLine
  split
  · cases hp : parseJson (l.drop 6) with
    | none => simp [contentDeltas, thinkingDeltas]
    | some data => exact scDispatch_buffers showT s data
  · simp [contentDeltas, thinkingDeltas]

theorem scLines_buffers (showT : Bool) (ls : List (List Char)) :
    ∀ s : SCState,
      (scLines showT s ls).1.contentBuffer =
        s.contentBuffer ++ contentDeltas (scLines showT s ls).2 ∧
      (scLines showT s ls).1.thinkingBuffer =
        s.thinkingBuffer ++ thinkingDeltas (scLines showT s ls).2 := by
  induction ls with
  | nil => intro s; simp [scLines, contentDeltas, thinkingDeltas]
  | cons l ls ih =>
    intro s
    simp only [scLines, contentDeltas_append, thinkingDeltas_append]
    have h1 := scLine_buffers showT s l
    have h2 := ih (scLine showT s l).1
    constructor
    · rw [h2.1, h1.1, List.append_assoc]
    · rw [h2.2, h1.2, List.append_assoc]

/-- Effect of a typed `done` line on an arbitrary state. -/
theorem scLine_done (showT : Bool) (s : SCState) :
    scLine showT s doneLine =
      ({ s with
          messages := s.messages ++
            (if !s.thinkingBuffer.isEmpty && showT
             then [{ role := Role.thinking, content := s.thinkingBuffer, toolCall := none }]
             else []) ++
            (if !s.contentBuffer.isEmpty
             then [{ role := Role.assistant, content := s.contentBuffer, toolCall := none }]
             else [])
          currentThinking := []
          currentContent := [] },
       [SCEv.doneFin]) := rfl

/-! ## Dispatch-loop lemmas for the keyboard matcher -/

/-- The scan loop fires exactly the first descriptor that matches and
survives suppression. -/
theorem dispatch_eq_find (inField : Bool) (e : KeyEvent) (scs : List Shortcut) :
    dispatch inField e scs =
      (scs.find? (fun sc =>
        matchesKey sc e && matchesModifier sc e && !(suppressed inField sc e))).map
        Shortcut.handler := by
  induction scs with
  | nil => simp [dispatch]
  | cons sc rest ih =>
    by_cases hm : (matchesKey sc e && matchesModifier sc e) = true
    · by_cases hs : suppressed inField sc e = true
      · simp [dispatch, hm, hs, List.find?, ih]
      · simp [dispatch, hm, hs, List.find?]
    · simp [dispatch, hm, List.find?, ih]

theorem matchesModifier_swap (sc : Shortcut) (e : KeyEvent)
    (c1 m1 c2 m2 : Bool) (hw : wantsCmd sc = true) (h : (c1 || m1) = (c2 || m2)) :
    matchesModifier sc { e with ctrlKey := c1, metaKey := m1 } =
      matchesModifier sc { e with ctrlKey := c2, metaKey := m2 } := by
  simp only [matchesModifier, hw, if_true, cmdOrCtrl]
  rw [h]

theorem dispatch_key_insensitive (inField : Bool) (e : KeyEvent) (k : List Char)
    (scs : List Shortcut) (h : lowerStr k = lowerStr e.key) :
    dispatch inField { e with key := k } scs = dispatch inField e scs := by
  induction scs with
  | nil => rfl
  | cons sc rest ih =>
    have hk : matchesKey sc { e with key := k } = matchesKey sc e := by
      simp [matchesKey, h]
    have hmod : matchesModifier sc { e with key := k } = matchesModifier sc e := rfl
    have hsup : suppressed inField sc { e with key := k } = suppressed inField sc e := rfl
    simp only [dispatch, hk, hmod, hsup, ih]

theorem matchesModifier_shift_none (sc : Shortcut) (e : KeyEvent) (b : Bool)
    (h : sc.shift = none) :
    matchesModifier sc { e with shiftKey := b } = matchesModifier sc e := by
  simp only [matchesModifier, h]
  split <;> simp [optMatches, cmdOrCtrl]

theorem matchesModifier_alt_none (sc : Shortcut) (e : KeyEvent) (b : Bool)
    (h : sc.alt = none) :
    matchesModifier sc { e with altKey := b } = matchesModifier sc e := by
  simp only [matchesModifier, h]
  split <;> simp [optMatches, cmdOrCtrl]

theorem matchesModifier_cm_none (sc : Shortcut) (e : KeyEvent) (b1 b2 : Bool)
    (hc : sc.ctrl = none) (hm : sc.meta = none) :
    matchesModifier sc { e with ctrlKey := b1, metaKey := b2 } = matchesModifier sc e := by
  have hw : wantsCmd sc = false := by simp [wantsCmd, hc, hm]
  simp [matchesModifier, hw, hc, hm, optMatches]

/-- While focus is in an input field, a fired handler always belongs to a
matching descriptor whose key is exactly `Escape` or to an event with ctrl
or meta held. -/
theorem dispatch_fired_in_field (e : KeyEvent) (scs : List Shortcut) (h : Nat)
    (hd : dispatch true e scs = some h) :
    ∃ sc, sc ∈ scs ∧ sc.handler = h ∧
      (matchesKey sc e && matchesModifier sc e) = true ∧
      (sc.key = ("Escape".toList) ∨ cmdOrCtrl e = true) := by
  induction scs with
  | nil => simp [dispatch] at hd
  | cons sc rest ih =>
    by_cases hm : (matchesKey sc e && matchesModifier sc e) = true
    · by_cases hs : suppressed true sc e = true
      · rw [dispatch, if_pos hm, if_pos hs] at hd
        obtain ⟨x, hx1, hx2, hx3, hx4⟩ := ih hd
        exact ⟨x, List.mem_cons_of_mem _ hx1, hx2, hx3, hx4⟩
      · rw [dispatch, if_pos hm, if_neg hs] at hd
        refine ⟨sc, List.mem_cons_self _ _, by injection hd, hm, ?_⟩
        by_cases hk : sc.key = ("Escape".toList)
        · exact Or.inl hk
        · cases hcv : cmdOrCtrl e with
          | true => exact Or.inr rfl
          | false =>
            refine absurd ?_ hs
            simp only [suppressed, hcv]
            simp
            exact hk
    · rw [dispatch, if_neg hm] at hd
      obtain ⟨x, hx1, hx2, hx3, hx4⟩ := ih hd
      exact ⟨x, List.mem_cons_of_mem _ hx1, hx2, hx3, hx4⟩

/-- While focus is in an input field with no ctrl/meta held, a shortcut list
with no exactly-`Escape` key never fires. -/
theorem dispatch_plain_suppressed_in_field (e : KeyEvent) (scs : List Shortcut)
    (hc : cmdOrCtrl e = false)
    (hk : ∀ sc ∈ scs, ¬ sc.key = ("Escape".toList)) :
    dispatch true e scs = none := by
  induction scs with
  | nil => rfl
  | cons sc rest ih =>
    have hs : suppressed true sc e = true := by
      simp only [suppressed, hc]
      simp
      exact hk sc (by simp)
    have ihr := ih (fun x hx => hk x (by simp [hx]))
    by_cases hm : (matchesKey sc e && matchesModifier sc e) = true
    · rw [dispatch, if_pos hm, if_pos hs]; exact ihr
    · rw [dispatch, if_neg hm]; exact ihr

/-! ## Claim theorems -/

/-- C1 (corrected): chunk-boundary invariance holds for the StreamingChatUI
decode loop, which buffers the unterminated tail between `reader.read()`
iterations: any partition of the stream text into chunks yields exactly the
run (state and event trace, hence event order) of delivering the text as a
single chunk. -/
theorem c1_chunk_invariance_buffered_loop (showT : Bool) (cs : List (List Char)) :
    scRun showT [] scInit cs = scRun showT [] scInit [cs.flatten] := by
  rw [scRun_eq_scFeed showT cs [] scInit (by simp),
      scRun_eq_scFeed showT [cs.flatten] [] scInit (by simp)]
  simp

/-- C1 counterexample: `chatApi.streamMessage` splits each chunk in
isolation, so the same text split mid-line produces a different callback
sequence than the single-chunk delivery — the `[DONE]` sentinel is missed
and a garbage payload `[D` is forwarded to `onChunk` instead. -/
theorem c1_streamMessage_split_counterexample :
    smRun [("data: [D".toList), ("ONE]\n".toList)] =
      [SMEv.chunkOut ("[D".toList), SMEv.complete] ∧
    smRun [("data: [D".toList) ++ ("ONE]\n".toList)] = [SMEv.complete] :=
  ⟨rfl, rfl⟩

/-- C2 (corrected): the terminal forms are split between the two consumers.
`streamMessage` accepts the literal `[DONE]` (completing, for any state of
the rest of the input) and any `[ERROR]`-prefixed payload (erroring with
`data.slice(8)`, i.e. the remainder after eight characters, untrimmed);
the StreamingChatUI loop accepts the typed `done` object (finalizing the
accumulated buffers into messages) while the typed `error` object makes it
throw an exception that its own per-line `catch` swallows into a console
log, never a user-visible terminal event. -/
theorem c2_terminal_forms_split :
    (∀ rest, smProcessLines (("data: [DONE]".toList) :: rest) = ([SMEv.complete], true)) ∧
    (∀ (m : List Char) rest,
      smProcessLines ((("data: [ERROR] ".toList) ++ m) :: rest) = ([SMEv.err m], true)) ∧
    (∀ (showT : Bool) (s : SCState),
      scLine showT s doneLine =
        ({ s with
            messages := s.messages ++
              (if !s.thinkingBuffer.isEmpty && showT
               then [{ role := Role.thinking, content := s.thinkingBuffer
                       toolCall := none }]
               else []) ++
              (if !s.contentBuffer.isEmpty
               then [{ role := Role.assistant, content := s.contentBuffer
                       toolCall := none }]
               else [])
            currentThinking := []
            currentContent := [] },
         [SCEv.doneFin])) ∧
    (∀ (showT : Bool) (s : SCState),
      scLine showT s errLine = (s, [SCEv.caught (some ("boom".toList))])) :=
  ⟨fun _ => rfl, fun _ _ => rfl, scLine_done, fun _ _ => rfl⟩

/-- C2 counterexample: no single consumer accepts all four terminal forms.
The StreamingChatUI loop treats the literal `[DONE]` payload as a JSON parse
failure (console log, no `Done`), and `streamMessage` forwards a typed
`done` object verbatim to `onChunk` without completing; an `[ERROR]` payload
without the following space loses a message character to `slice(8)` instead
of being trimmed. -/
theorem c2_terminal_forms_counterexample :
    (scLines true scInit [("data: [DONE]".toList)]).2 = [SCEv.caught none] ∧
    smProcessLines [("data: \x7b\"type\":\"done\"\x7d".toList)] =
      ([SMEv.chunkOut ("\x7b\"type\":\"done\"\x7d".toList)], false) ∧
    smProcessLines [("data: [ERROR]no-space".toList)] =
      ([SMEv.err ("o-space".toList)], true) :=
  ⟨rfl, rfl, rfl⟩

/-- C3 (corrected): only `chatApi.streamMessage` is terminal-idempotent —
once a chunk's processing hits `[DONE]`/`[ERROR]` the function returns, so
everything delivered afterwards is ignored (the run is independent of the
later chunks). -/
theorem c3_streamMessage_stops_at_terminal (pre : List (List Char)) (c : List Char)
    (cs cs' : List (List Char))
    (h : (smProcessLines (splitAll c)).2 = true) :
    smRun (pre ++ c :: cs) = smRun (pre ++ c :: cs') := by
  induction pre with
  | nil => simp [smRun, h]
  | cons a pre ih =>
    simp only [List.cons_append, smRun, List.append_eq]
    rw [ih]

/-- C3 witness: a chunk carrying `data: [DONE]` stops `streamMessage`; the
run with a further content chunk equals the run without it. -/
theorem c3_streamMessage_stops_at_terminal_witness :
    (smProcessLines (splitAll ("data: [DONE]\n".toList))).2 = true ∧
    smRun ([] ++ ("data: [DONE]\n".toList) :: [contentXLine ++ ['\n']]) =
      smRun ([] ++ ("data: [DONE]\n".toList) :: []) :=
  ⟨rfl, c3_streamMessage_stops_at_terminal [] ("data: [DONE]\n".toList)
    [contentXLine ++ ['\n']] [] rfl⟩

/-- C3 counterexample: the StreamingChatUI loop latches no terminal state —
a well-formed content line delivered after a typed `done` line is decoded
and emits a further event, refuting that feeds after a terminal event
return empty. -/
theorem c3_decoder_continues_after_done_counterexample :
    (scLines true scInit [doneLine, contentXLine]).2 =
      [SCEv.doneFin, SCEv.content ("x".toList)] := rfl

/-- C4 (corrected): a `data: ` line whose payload fails `JSON.parse` leaves
the whole decoder state unchanged and produces only the `console.error`
log of the caught exception — no `Error` stream event carrying
`malformed event payload` exists in the code.  Decoding of subsequent lines
continues unaffected because the state is untouched. -/
theorem c4_malformed_line_logged_and_skipped (showT : Bool) (s : SCState)
    (line : List Char) (h1 : dataMark.isPrefixOf line = true)
    (h2 : parseJson (line.drop 6) = none) :
    scLine showT s line = (s, [SCEv.caught none]) := by
  simp [scLine, h1, h2]

/-- C4 witness: the concrete line `data: notjson` is logged and skipped. -/
theorem c4_malformed_line_logged_and_skipped_witness :
    dataMark.isPrefixOf badLine = true ∧
    parseJson (badLine.drop 6) = none ∧
    scLine true scInit badLine = (scInit, [SCEv.caught none]) :=
  ⟨rfl, rfl, c4_malformed_line_logged_and_skipped true scInit badLine rfl rfl⟩

/-- C4 counterexample: a malformed line followed by a good line yields only
a console-log action and the later content event — no `Error` event with
message `malformed event payload` is emitted for the bad line. -/
theorem c4_no_error_event_counterexample :
    (scLines true scInit [badLine, contentXLine]).2 =
      [SCEv.caught none, SCEv.content ("x".toList)] := rfl

/-- C5 (corrected): the decode loop keeps no open-tool-call state.  In every
state a `tool_call` line simply appends a new tool message and announces it,
regardless of any unresolved call; a `tool_result` line updates the most
recent tool-role message via `findLastIndex` (a no-op when none exists) and
never emits any error; in particular a list with no tool message is left
unchanged. -/
theorem c5_no_open_call_tracking (showT : Bool) (s : SCState) :
    scLine showT s tcLine =
      ({ s with messages := s.messages ++
          [{ role := Role.tool
             content := ("Executing: read_file".toList)
             toolCall := some { name := tcName, args := tcArgs, result := none } }] },
       [SCEv.toolCallMsg tcName tcArgs]) ∧
    scLine showT s trLine =
      ({ s with messages := (applyToolResult trRes s.messages).1 },
       [SCEv.toolResultUpd trRes]) ∧
    (∀ (r : Option Json) (ms : List Msg),
      (∀ m ∈ ms, m.role ≠ Role.tool) → applyToolResult r ms = (ms, false)) := by
  refine ⟨rfl, rfl, ?_⟩
  intro r ms h
  induction ms with
  | nil => rfl
  | cons m ms ih =>
    have hm : m.role ≠ Role.tool := h m (by simp)
    have hms := ih (fun x hx => h x (by simp [hx]))
    simp [applyToolResult, hms, hm]

/-- C5 witness: with no tool message present, a `tool_result` update leaves
the message list untouched and reports no match. -/
theorem c5_no_open_call_tracking_witness :
    applyToolResult trRes [] = ([], false) :=
  (c5_no_open_call_tracking true scInit).2.2 trRes [] (by simp)

/-- C5 counterexample: two consecutive `tool_call` lines both emit
`ToolCall` (no `nested tool call` error, and the state does change), and a
`tool_result` with no preceding call emits its update action rather than an
`unmatched tool result` error. -/
theorem c5_tool_protocol_counterexample :
    (scLines true scInit [tcLine, tcLine]).2 =
      [SCEv.toolCallMsg tcName tcArgs, SCEv.toolCallMsg tcName tcArgs] ∧
    (scLines true scInit [trLine]).2 = [SCEv.toolResultUpd trRes] :=
  ⟨rfl, rfl⟩

/-- C6 (corrected): when the transport ends, the unterminated buffered line
is discarded without ever being emitted — appending a newline-free tail
chunk to any run contributes no event — but no `Error` is synthesized
either, whether or not a terminal event was seen. -/
theorem c6_unterminated_tail_discarded_silently (showT : Bool)
    (cs : List (List Char)) (t : List Char) (ht : '\n' ∉ t) :
    (scRun showT [] scInit (cs ++ [t])).2 = (scRun showT [] scInit cs).2 := by
  rw [scRun_eq_scFeed showT (cs ++ [t]) [] scInit (by simp),
      scRun_eq_scFeed showT cs [] scInit (by simp)]
  have hflat : (cs ++ [t]).flatten = cs.flatten ++ t := by simp
  rw [hflat, scFeed_comp]
  have hb : '\n' ∉ (scFeed showT [] scInit cs.flatten).1.1 :=
    lineSplit_rest_no_nl ([] ++ cs.flatten)
  have h2 := scFeed_no_nl showT _ (scFeed showT [] scInit cs.flatten).1.2 t hb ht
  simp [h2]

/-- C6 witness: the spec's partial final line, arriving after a complete
content line, adds no event to the run. -/
theorem c6_unterminated_tail_discarded_silently_witness :
    '\n' ∉ partialLine ∧
    (scRun true [] scInit ([contentXLine ++ ['\n']] ++ [partialLine])).2 =
      (scRun true [] scInit [contentXLine ++ ['\n']]).2 :=
  ⟨by decide,
   c6_unterminated_tail_discarded_silently true [contentXLine ++ ['\n']]
     partialLine (by decide)⟩

/-- C6 counterexample: the spec's unterminated-stream scenario — feeding the
partial content line and ending the transport — yields no event at all
(the claim expects `[Content, Error]`); with a terminating newline it
yields only the content event, still with no synthesized `Error`; and
`streamMessage` reports plain completion at end of stream. -/
theorem c6_finish_emits_no_error_counterexample :
    (scRun true [] scInit [partialLine]).2 = [] ∧
    (scRun true [] scInit [partialLine ++ ['\n']]).2 =
      [SCEv.content ("partial".toList)] ∧
    smRun [] = [SMEv.complete] :=
  ⟨rfl, rfl, rfl⟩

/-- C7 (confirmed): `contentBuffer` and `thinkingBuffer` accumulate exactly
the concatenation, in emission order, of the respective deltas, and a typed
`done` line finalizes them into a thinking message and an assistant message
(each only when non-empty) carrying those concatenations. -/
theorem c7_done_finalizes_buffered_concatenation (ls : List (List Char)) :
    (scLines true scInit ls).1.contentBuffer = contentDeltas (scLines true scInit ls).2 ∧
    (scLines true scInit ls).1.thinkingBuffer = thinkingDeltas (scLines true scInit ls).2 ∧
    (scLine true (scLines true scInit ls).1 doneLine).1.messages =
      (scLines true scInit ls).1.messages ++
        (if !(thinkingDeltas (scLines true scInit ls).2).isEmpty
         then [{ role := Role.thinking
                 content := thinkingDeltas (scLines true scInit ls).2
                 toolCall := none }]
         else []) ++
        (if !(contentDeltas (scLines true scInit ls).2).isEmpty
         then [{ role := Role.assistant
                 content := contentDeltas (scLines true scInit ls).2
                 toolCall := none }]
         else []) := by
  have hb := scLines_buffers true ls scInit
  have hc : (scLines true scInit ls).1.contentBuffer
      = contentDeltas (scLines true scInit ls).2 := by
    rw [hb.1]; rfl
  have ht : (scLines true scInit ls).1.thinkingBuffer
      = thinkingDeltas (scLines true scInit ls).2 := by
    rw [hb.2]; rfl
  refine ⟨hc, ht, ?_⟩
  rw [scLine_done]
  simp [hc, ht]

/-- C8 (confirmed): the dispatch loop fires exactly the first descriptor
satisfying all constraints (match plus survival of the suppression rule),
at most once per event since the result is a single optional handler; the
event key is compared case-insensitively; a descriptor requesting ctrl or
meta is satisfied by either being held; and unset shift/alt/ctrl/meta flags
are don't-care for matching. -/
theorem c8_matcher_first_match_contract :
    (∀ (inField : Bool) (e : KeyEvent) (scs : List Shortcut),
      dispatch inField e scs =
        (scs.find? (fun sc =>
          matchesKey sc e && matchesModifier sc e && !(suppressed inField sc e))).map
          Shortcut.handler) ∧
    (∀ (inField : Bool) (e : KeyEvent) (k : List Char) (scs : List Shortcut),
      lowerStr k = lowerStr e.key →
      dispatch inField { e with key := k } scs = dispatch inField e scs) ∧
    (∀ (sc : Shortcut) (e : KeyEvent) (c1 m1 c2 m2 : Bool),
      wantsCmd sc = true → (c1 || m1) = (c2 || m2) →
      matchesModifier sc { e with ctrlKey := c1, metaKey := m1 } =
        matchesModifier sc { e with ctrlKey := c2, metaKey := m2 }) ∧
    (∀ (sc : Shortcut) (e : KeyEvent) (b : Bool), sc.shift = none →
      matchesModifier sc { e with shiftKey := b } = matchesModifier sc e) ∧
    (∀ (sc : Shortcut) (e : KeyEvent) (b : Bool), sc.alt = none →
      matchesModifier sc { e with altKey := b } = matchesModifier sc e) ∧
    (∀ (sc : Shortcut) (e : KeyEvent) (b1 b2 : Bool),
      sc.ctrl = none → sc.meta = none →
      matchesModifier sc { e with ctrlKey := b1, metaKey := b2 } =
        matchesModifier sc e) :=
  ⟨dispatch_eq_find, dispatch_key_insensitive, matchesModifier_swap,
   matchesModifier_shift_none, matchesModifier_alt_none, matchesModifier_cm_none⟩

/-- C8 witness: the loop result coincides with the declarative first-match
on a concrete two-descriptor list, and a ctrl-requesting descriptor treats
ctrl-held and meta-held events alike. -/
theorem c8_matcher_first_match_contract_witness :
    dispatch false eS [scCtrlS, plainK] =
      (([scCtrlS, plainK].find? (fun sc =>
        matchesKey sc eS && matchesModifier sc eS && !(suppressed false sc eS))).map
        Shortcut.handler) ∧
    wantsCmd scCtrlS = true ∧
    matchesModifier scCtrlS { eS with ctrlKey := true, metaKey := false } =
      matchesModifier scCtrlS { eS with ctrlKey := false, metaKey := true } :=
  ⟨c8_matcher_first_match_contract.1 false eS [scCtrlS, plainK], rfl,
   c8_matcher_first_match_contract.2.2.1 scCtrlS eS true false false true rfl rfl⟩

/-- C9 (corrected): the in-input-field gate is evaluated on the event, not
the descriptor — a handler fires only when its descriptor key is exactly
`Escape` or the event itself has ctrl or meta held, and when neither ctrl
nor meta is held, lists without an exactly-`Escape` key never fire. -/
theorem c9_input_suppression_actual_rule :
    (∀ (e : KeyEvent) (scs : List Shortcut) (h : Nat),
      dispatch true e scs = some h →
      ∃ sc, sc ∈ scs ∧ sc.handler = h ∧
        (matchesKey sc e && matchesModifier sc e) = true ∧
        (sc.key = ("Escape".toList) ∨ cmdOrCtrl e = true)) ∧
    (∀ (e : KeyEvent) (scs : List Shortcut),
      cmdOrCtrl e = false → (∀ sc ∈ scs, ¬ sc.key = ("Escape".toList)) →
      dispatch true e scs = none) :=
  ⟨dispatch_fired_in_field, dispatch_plain_suppressed_in_field⟩

/-- C9 witness: with no ctrl/meta held an ordinary letter shortcut stays
suppressed inside an input field. -/
theorem c9_input_suppression_actual_rule_witness :
    cmdOrCtrl eEsc = false ∧ dispatch true eEsc [plainK] = none :=
  ⟨rfl,
   c9_input_suppression_actual_rule.2 eEsc [plainK] rfl
     (by intro sc hsc; rw [List.mem_singleton] at hsc; subst hsc; decide)⟩

/-- C9 counterexample: a plain-letter descriptor with no ctrl/meta
requirement fires inside an input field when the user happens to hold ctrl
— the claim says every such shortcut is suppressed there. -/
theorem c9_plain_shortcut_fires_counterexample :
    dispatch true eCtrlK [plainK] = some 0 := rfl

/-- C10 (confirmed): a matching descriptor that the input-field rule
suppresses does not end dispatch — the loop `continue`s, so the scan result
over the remaining descriptors is unchanged and a later matching descriptor
can fire. -/
theorem c10_suppressed_match_continues_scanning (inField : Bool) (e : KeyEvent)
    (sc : Shortcut) (rest : List Shortcut)
    (h1 : (matchesKey sc e && matchesModifier sc e) = true)
    (h2 : suppressed inField sc e = true) :
    dispatch inField e (sc :: rest) = dispatch inField e rest := by
  rw [dispatch, if_pos h1, if_pos h2]

/-- C10 witness: a lowercase-registered `escape` descriptor matches the
`Escape` keydown but is suppressed in an input field; scanning continues
and the later exactly-`Escape` descriptor fires. -/
theorem c10_suppressed_match_continues_scanning_witness :
    (matchesKey scEscLower eEsc && matchesModifier scEscLower eEsc) = true ∧
    suppressed true scEscLower eEsc = true ∧
    dispatch true eEsc [scEscLower, scEscExact] = dispatch true eEsc [scEscExact] ∧
    dispatch true eEsc [scEscExact] = some 1 :=
  ⟨rfl, rfl,
   c10_suppressed_match_continues_scanning true eEsc scEscLower [scEscExact] rfl rfl,
   rfl⟩

end Pawa
